import Mathlib

/-!
raw10p-to-grbg8: 10-bit packed Bayer to 8-bit GRBG conversion.

A shallow embedding of `raw10p-to-grbg8.c` and the properties of it that the
specification states.

Modelling conventions.

* A byte is a `Nat` (the program only copies bytes and zero-fills pixels), a
  buffer or a file is a `List Nat`.
* C `int` variables are `Int`; the conversion of `ftell`'s `long` result to
  `int` is made explicit by `toInt32`.
* An access outside the line buffer, undefined behaviour in C, stops the run
  with `Stop.outOfBounds`; a read of the pointer `indexes` that no `case` of
  the `switch` assigned stops it with `Stop.uninitialised`.
* `error()` never returns (it calls `exit` with a non-zero status), so a run
  that reaches it stops with `Stop.failure`.
* The C library calls succeed whenever their arguments allow it: `fopen`,
  `malloc`, `fseek` and `fclose` always do, `fread` delivers an item when the
  file still holds that many bytes, `fwrite` writes an item of non-zero size.
  Both return 0 for an item of size 0, as the C standard prescribes.
-/

namespace Raw10

/-! ## Outcomes -/

/-- The `error(...)` call sites of the program. -/
inductive Failure where
  | badFormat      -- "bad format"
  | badSize        -- "bad size"
  | badArgument    -- "bad argument"
  | fileSize       -- "%s: failed to get file size"
  | badFrameSize   -- "bad frame size: width=%d, height=%d"
  | notMultiple    -- "the input file size is not multiple of frame height"
  | lineLen        -- "line_len (%d) < width (%d)"
  | readError      -- "%s: read error"
  | writeError     -- "%s: write error"
  deriving DecidableEq

/-- Ways a run ends other than by `return 0`. -/
inductive Stop where
  | failure (e : Failure)   -- `error()`: message on stderr, exit status non-zero
  | info                    -- `-f ?` or `-h`: text on stdout, `exit(0)`
  | outOfBounds             -- access outside the line buffer
  | uninitialised           -- read of `indexes` without a value
  | outOfFuel               -- the model of a loop ran out of fuel
  deriving DecidableEq

/-- What a run leaves behind: how it ended (`none` is `return 0`), the header
and body of `<infile>.bayer.pnm` and the bytes of the output file, each `none`
when the file was not created. -/
structure Outcome where
  status : Option Stop
  bayer : Option (String × List Nat)
  out : Option (List Nat)
  deriving DecidableEq

/-! ## Formats -/

/-- The macro `v4l2_fourcc(a, b, c, d)` of `linux/videodev2.h`. -/
def v4l2_fourcc (a b c d : Char) : Nat :=
  a.toNat + b.toNat * 2 ^ 8 + c.toNat * 2 ^ 16 + d.toNat * 2 ^ 24

/-- Constant of `linux/videodev2.h` (a system header, not among the sources);
its four-character code is the one quoted in the name column of
`v4l2_pix_fmt_str`. -/
def V4L2_PIX_FMT_SRGGB10P : Nat := v4l2_fourcc 'p' 'R' 'A' 'A'

/-- Constant of `linux/videodev2.h`, four-character code `pgAA`. -/
def V4L2_PIX_FMT_SGRBG10P : Nat := v4l2_fourcc 'p' 'g' 'A' 'A'

/-- Constant of `linux/videodev2.h`, four-character code `pGAA`. -/
def V4L2_PIX_FMT_SGBRG10P : Nat := v4l2_fourcc 'p' 'G' 'A' 'A'

/-- Constant of `linux/videodev2.h`, four-character code `pBAA`. -/
def V4L2_PIX_FMT_SBGGR10P : Nat := v4l2_fourcc 'p' 'B' 'A' 'A'

/-- The table `v4l2_pix_fmt_str`: format code and name. -/
def v4l2_pix_fmt_str : List (Nat × String) :=
  [ (V4L2_PIX_FMT_SRGGB10P, "SRGGB10P (RGRG... GBGB... ; ‘pRAA’)"),
    (V4L2_PIX_FMT_SGRBG10P, "SGRBG10P (GRGR... BGBG... ; ‘pgAA’)"),
    (V4L2_PIX_FMT_SGBRG10P, "SGBRG10P (GBGB... RGRG... ; ‘pGAA’)"),
    (V4L2_PIX_FMT_SBGGR10P, "SBGGR10P (BGBG... GRGR... ; ‘pBAA’)") ]

/-- The characters of a table name before its first blank: what the inner
`for (j = 0; name[j] != ' ' && name[j] != 0; j++)` loops delimit. -/
def shortName (name : String) : String :=
  String.mk (name.toList.takeWhile (fun c => c != ' '))

/-- The `case 'f'` branch of the option loop for an argument other than `?`:
the code of the first table entry whose short name is `optarg`. -/
def lookupFormat (optarg : String) : Option Nat :=
  (v4l2_pix_fmt_str.find? (fun e => shortName e.2 == optarg)).map (fun e => e.1)

/-! ## Command line -/

/-- One option as `getopt` delivers it. For `-s` the payload is the result of
`parse_size`: the two numbers, or `none` when it returns -1. -/
inductive Opt where
  | f (optarg : String)
  | s (size : Option (Int × Int))
  | b
  | h
  | unknown
  deriving DecidableEq

/-- The variables the option loop of `main` sets. -/
structure Settings where
  format : Nat
  size0 : Int
  size1 : Int
  write_bayer_pnm : Bool
  deriving DecidableEq

/-- The `for (;;) { getopt ... }` loop of `main`, one step per option. -/
def parseOptions : List Opt → Settings → Except Stop Settings
  | [], st => .ok st
  | Opt.f optarg :: rest, st =>
    if optarg = "?" then .error .info
    else
      match lookupFormat optarg with
      | none => .error (.failure .badFormat)
      | some fmt => parseOptions rest ⟨fmt, st.size0, st.size1, st.write_bayer_pnm⟩
  | Opt.s none :: _, _ => .error (.failure .badSize)
  | Opt.s (some (w, h)) :: rest, st =>
    parseOptions rest ⟨st.format, w, h, st.write_bayer_pnm⟩
  | Opt.b :: rest, st => parseOptions rest ⟨st.format, st.size0, st.size1, true⟩
  | Opt.h :: _, _ => .error .info
  | Opt.unknown :: _, _ => .error (.failure .badArgument)

/-! ## Buffers and streams -/

/-- Conversion of a file offset to `int`, as in `file_size = ftell(fp_in)`. -/
def toInt32 (n : Nat) : Int :=
  if n % 2 ^ 32 < 2 ^ 31 then ((n % 2 ^ 32 : Nat) : Int) else ((n % 2 ^ 32 : Nat) : Int) - 2 ^ 32

/-- Library `memmove(data + dst, data + src, n)` on a buffer: the `n` bytes at
`src` are copied to `dst` as if through a temporary. -/
def memmove (data : List Nat) (dst src n : Nat) : Except Stop (List Nat) :=
  if src + n ≤ data.length ∧ dst + n ≤ data.length then
    .ok (data.take dst ++ (data.drop src).take n ++ data.drop (dst + n))
  else .error .outOfBounds

/-- Library `fread(data, size, 1, fp)` at file position `pos`: the item read and
the new position, or `none` when the call does not return 1. -/
def fread (file : List Nat) (pos size : Nat) : Option (List Nat × Nat) :=
  if 0 < size ∧ pos + size ≤ file.length then
    some ((file.drop pos).take size, pos + size)
  else none

/-- Library `fwrite(data + off, size, 1, fp)`: the bytes appended to the stream,
or `none` when the call does not return 1 (an item of size 0). -/
def fwrite (data : List Nat) (off : Nat) (size : Int) : Except Stop (Option (List Nat)) :=
  if size = 0 then .ok none
  else if 0 < size ∧ off + size.toNat ≤ data.length then
    .ok (some ((data.drop off).take size.toNat))
  else .error .outOfBounds

/-! ## The unpack loop -/

/-- The loop `for (src = 5, dst = 4; dst < width; src += 5, dst += 4)
memmove(data+dst, data+src, 4);`, from the state `src`, `dst`, `data`. -/
def unpackLoop (width : Int) : Nat → Nat → Nat → List Nat → Except Stop (List Nat)
  | 0, _, dst, data => if (dst : Int) < width then .error .outOfFuel else .ok data
  | fuel + 1, src, dst, data =>
    if (dst : Int) < width then
      match memmove data dst src 4 with
      | .ok data1 => unpackLoop width fuel (src + 5) (dst + 4) data1
      | .error e => .error e
    else .ok data

/-- The unpack loop from its initial state. `dst` grows by 4 in each round, so
`width` rounds of fuel are more than the loop can use. -/
def unpack (data : List Nat) (width : Int) : Except Stop (List Nat) :=
  unpackLoop width width.toNat 5 4 data

/-- The byte indices the unpack loop touches from the state `src`, `dst`, in
order: each `memmove(data+dst, data+src, 4)` reads `src .. src+3` and writes
`dst .. dst+3`. -/
def unpackAccesses (width : Int) : Nat → Nat → Nat → List Nat
  | 0, _, _ => []
  | fuel + 1, src, dst =>
    if (dst : Int) < width then
      List.range' src 4 ++ List.range' dst 4 ++ unpackAccesses width fuel (src + 5) (dst + 4)
    else []

/-! ## The visualisation pass -/

/-- Colour table of `main`, channel index by row and column parity. -/
def GRBG_indexes : List (List Nat) := [[1, 0], [2, 1]]

/-- Colour table of `main`, channel index by row and column parity. -/
def RGGB_indexes : List (List Nat) := [[0, 1], [1, 2]]

/-- Colour table of `main`, channel index by row and column parity. -/
def GBRG_indexes : List (List Nat) := [[1, 2], [0, 1]]

/-- Colour table of `main`, channel index by row and column parity. -/
def BGGR_indexes : List (List Nat) := [[2, 1], [1, 0]]

/-- The `switch (format)` that sets `indexes`; no `case` matches another value
and the pointer keeps no value. -/
def selectIndexes (format : Nat) : Option (List (List Nat)) :=
  if format = V4L2_PIX_FMT_SGRBG10P then some GRBG_indexes
  else if format = V4L2_PIX_FMT_SRGGB10P then some RGGB_indexes
  else if format = V4L2_PIX_FMT_SGBRG10P then some GBRG_indexes
  else if format = V4L2_PIX_FMT_SBGGR10P then some BGGR_indexes
  else none

/-- The element `(*indexes)[i][j]` of a colour table. -/
def tableAt (indexes : List (List Nat)) (i j : Nat) : Nat :=
  (indexes.getD i []).getD j 0

/-- The body of the `pos` loop: `memset(pixel_buf, 0, 3)`, then
`pixel_buf[index] = data[pos]`. -/
def makePixel (index value : Nat) : List Nat :=
  [0, 0, 0].set index value

/-- The loop `for (pos = 0; pos < width; pos++)` of the visualisation pass with
`n` rounds left: one pixel is appended to the stream in each round. -/
def pixelLoop (indexes : Option (List (List Nat))) (data : List Nat) (line : Nat) :
    Nat → Nat → List Nat → List Nat × Option Stop
  | 0, _, body => (body, none)
  | n + 1, pos, body =>
    match indexes with
    | none => (body, some .uninitialised)
    | some t =>
      match data[pos]? with
      | none => (body, some .outOfBounds)
      | some v =>
        pixelLoop indexes data line n (pos + 1)
          (body ++ makePixel (tableAt t (line % 2) (pos % 2)) v)

/-- The loop `for (line = 0; line < height; line++)` of the visualisation pass
with `n` rounds left, `pos` being the position in the input file. -/
def bayerLoop (file : List Nat) (line_len : Nat) (width : Int)
    (indexes : Option (List (List Nat))) :
    Nat → Nat → Nat → List Nat → List Nat × Option Stop
  | 0, _, _, body => (body, none)
  | n + 1, line, pos, body =>
    match fread file pos line_len with
    | none => (body, some (.failure .readError))
    | some (data, pos1) =>
      match unpack data width with
      | .error e => (body, some e)
      | .ok data1 =>
        match pixelLoop indexes data1 line width.toNat 0 body with
        | (body1, some e) => (body1, some e)
        | (body1, none) => bayerLoop file line_len width indexes n (line + 1) pos1 body1

/-- The text `fprintf(fp_out_bayer, "P6\n%i %i\n255\n", size[0], size[1])`
writes. -/
def pnmHeader (size0 size1 : Int) : String :=
  "P6\n" ++ toString size0 ++ " " ++ toString size1 ++ "\n255\n"

/-! ## The main pass -/

/-- The loop `for (line = 0; line < height; line++)` of the main pass with `n`
rounds left, `pos` being the position in the input file and `width` and
`shift` the values these variables have when the loop starts. -/
def mainLoop (file : List Nat) (line_len : Nat) (width : Int) (shift : Nat) :
    Nat → Nat → List Nat → List Nat × Option Stop
  | 0, _, out => (out, none)
  | n + 1, pos, out =>
    match fread file pos line_len with
    | none => (out, some (.failure .readError))
    | some (data, pos1) =>
      match unpack data width with
      | .error e => (out, some e)
      | .ok data1 =>
        match fwrite data1 shift width with
        | .error e => (out, some e)
        | .ok none => (out, some (.failure .writeError))
        | .ok (some bytes) => mainLoop file line_len width shift n pos1 (out ++ bytes)

/-- The part of `main` from the output file's `fopen` to `return 0`. -/
def mainPass (format : Nat) (width height line_len : Int) (file : List Nat) :
    List Nat × Option Stop :=
  let rows :=
    if format = V4L2_PIX_FMT_SGBRG10P ∨ format = V4L2_PIX_FMT_SBGGR10P then
      (line_len.toNat, height - 2)
    else (0, height)
  let cols :=
    if format = V4L2_PIX_FMT_SRGGB10P ∨ format = V4L2_PIX_FMT_SGBRG10P then
      (1, width - 2)
    else (0, width)
  mainLoop file line_len.toNat cols.2 cols.1 rows.2.toNat rows.1 []

/-- The `if (write_bayer_pnm) { ... }` block of `main`: the header and body
written to the visualisation file and how the block ended. -/
def bayerPass (format : Nat) (size0 size1 width height line_len : Int) (file : List Nat) :
    (String × List Nat) × Option Stop :=
  match bayerLoop file line_len.toNat width (selectIndexes format) height.toNat 0 0 [] with
  | (body, e) => ((pnmHeader size0 size1, body), e)

/-- The part of `main` that follows the geometry checks and the allocation of
the line buffer. -/
def passes (format : Nat) (size0 size1 width height line_len : Int)
    (write_bayer_pnm : Bool) (file : List Nat) : Outcome :=
  if write_bayer_pnm then
    match bayerPass format size0 size1 width height line_len file with
    | (pnm, some e) => ⟨some e, some pnm, none⟩
    | (pnm, none) =>
      match mainPass format width height line_len file with
      | (out, e) => ⟨e, some pnm, some out⟩
  else
    match mainPass format width height line_len file with
    | (out, e) => ⟨e, none, some out⟩

/-- The function `main` after the option loop: `format`, `size` and
`write_bayer_pnm` are the values the option loop left, `file` the content of
the input file. -/
def convert (format : Nat) (size0 size1 : Int) (write_bayer_pnm : Bool)
    (file : List Nat) : Outcome :=
  let file_size := toInt32 file.length
  if file_size = -1 then ⟨some (.failure .fileSize), none, none⟩
  else
    let width := size0
    let height := size1
    if width < 2 ∨ height < 2 then ⟨some (.failure .badFrameSize), none, none⟩
    else
      let line_len := Int.tdiv file_size height
      if Int.tmod file_size height ≠ 0 then ⟨some (.failure .notMultiple), none, none⟩
      else if line_len < width then ⟨some (.failure .lineLen), none, none⟩
      else passes format size0 size1 width height line_len write_bayer_pnm file

/-- The program: `format0` is the value the variable `format` holds before the
option loop (it is declared without an initialiser), `opts` the options and
`file` the content of the input file; two file names follow the options. -/
def main (format0 : Nat) (opts : List Opt) (file : List Nat) : Outcome :=
  match parseOptions opts ⟨format0, -1, -1, false⟩ with
  | .error e => ⟨some e, none, none⟩
  | .ok st => convert st.format st.size0 st.size1 st.write_bayer_pnm file

/-! ## Vocabulary of the specification -/

/-- The Bayer phase of the specification: the colours of the first two samples
of the first line. -/
inductive Phase where
  | RedGreen
  | GreenRed
  | GreenBlue
  | BlueGreen
  deriving DecidableEq

/-- The format code of a phase: RedGreen is SRGGB10P, GreenRed is SGRBG10P,
GreenBlue is SGBRG10P and BlueGreen is SBGGR10P. -/
def Phase.code : Phase → Nat
  | .RedGreen => V4L2_PIX_FMT_SRGGB10P
  | .GreenRed => V4L2_PIX_FMT_SGRBG10P
  | .GreenBlue => V4L2_PIX_FMT_SGBRG10P
  | .BlueGreen => V4L2_PIX_FMT_SBGGR10P

/-- Trim vector of the specification, rows: `top = bottom = 1` exactly for
GreenBlue and BlueGreen. -/
def Phase.top : Phase → Nat
  | .GreenBlue => 1
  | .BlueGreen => 1
  | _ => 0

/-- Trim vector of the specification: `bottom` equals `top`. -/
def Phase.bottom (p : Phase) : Nat := p.top

/-- Trim vector of the specification, columns: `left = right = 1` exactly for
RedGreen and GreenBlue. -/
def Phase.left : Phase → Nat
  | .RedGreen => 1
  | .GreenBlue => 1
  | _ => 0

/-- Trim vector of the specification: `right` equals `left`. -/
def Phase.right (p : Phase) : Nat := p.left

/-- Colour layout of the specification, 0 = Red, 1 = Green, 2 = Blue, at row
parity `i` and column parity `j`: RedGreen R,G / G,B; GreenRed G,R / B,G;
GreenBlue G,B / R,G; BlueGreen B,G / G,R. -/
def Phase.colour : Phase → Nat → Nat → Nat
  | .RedGreen, 0, 0 => 0
  | .RedGreen, 0, _ => 1
  | .RedGreen, _, 0 => 1
  | .RedGreen, _, _ => 2
  | .GreenRed, 0, 0 => 1
  | .GreenRed, 0, _ => 0
  | .GreenRed, _, 0 => 2
  | .GreenRed, _, _ => 1
  | .GreenBlue, 0, 0 => 1
  | .GreenBlue, 0, _ => 2
  | .GreenBlue, _, 0 => 0
  | .GreenBlue, _, _ => 1
  | .BlueGreen, 0, 0 => 2
  | .BlueGreen, 0, _ => 1
  | .BlueGreen, _, 0 => 1
  | .BlueGreen, _, _ => 0

/-- Line `j` of a file whose lines are `line_len` bytes long. -/
def inputLine (file : List Nat) (line_len j : Nat) : List Nat :=
  (file.drop (j * line_len)).take line_len

/-- Sample `i` of a packed line as the specification unpacks it: the byte at
offset `5 * floor(i / 4) + i mod 4`, `none` when the line is too short. -/
def sample (data : List Nat) (i : Nat) : Option Nat :=
  data[5 * (i / 4) + i % 4]?

/-- A frame of the scenarios: 4 lines of 5 bytes, one packed group each. -/
def frame4x4 : List Nat :=
  [10, 20, 30, 40, 99, 11, 21, 31, 41, 99, 12, 22, 32, 42, 99, 13, 23, 33, 43, 99]

/-! ## Auxiliary definitions of the proofs -/

/-- Invariant of the unpack loop when it has moved the groups `1 .. k-1` of the
original buffer `data`: the first `4 * k` bytes are the leading four bytes of
the packed groups, the other bytes are unchanged. -/
def Compacted (data : List Nat) (k : Nat) (d : List Nat) : Prop :=
  d.length = data.length ∧
    ∀ i, d[i]? = if i < 4 * k then data[5 * (i / 4) + i % 4]? else data[i]?

/-- The bytes one round of the main loop appends to the output for the line
`data`, `[]` when the round does not complete its `fwrite`. -/
def rowBytes (data : List Nat) (width : Int) (shift : Nat) : List Nat :=
  match unpack data width with
  | .error _ => []
  | .ok data1 =>
    match fwrite data1 shift width with
    | .ok (some bytes) => bytes
    | _ => []

/-- The pixels one round of the line loop of the visualisation pass appends for
the line `data` at row `line`, `[]` when the unpack loop fails. -/
def rowPixels (t : List (List Nat)) (data : List Nat) (width : Int) (line : Nat) : List Nat :=
  match unpack data width with
  | .error _ => []
  | .ok data1 =>
    (List.range' 0 width.toNat).flatMap
      (fun pos => makePixel (tableAt t (line % 2) (pos % 2)) (data1.getD pos 0))

/-- A file of `n` bytes that is 1 at offset `m` and 0 elsewhere. -/
def markedFile (n m : Nat) : List Nat :=
  (List.range n).map (fun i => if i = m then 1 else 0)

/-! ## The unpack loop: lemmas -/

theorem memmove_eq_ok (data : List Nat) (dst src n : Nat)
    (hs : src + n ≤ data.length) (hd : dst + n ≤ data.length) :
    memmove data dst src n
      = .ok (data.take dst ++ (data.drop src).take n ++ data.drop (dst + n)) := by
  simp [memmove, hs, hd]

theorem memmove_eq_error (data : List Nat) (dst src n : Nat)
    (h : data.length < src + n) : memmove data dst src n = .error .outOfBounds := by
  have : ¬ (src + n ≤ data.length) := by omega
  simp [memmove, this]

theorem moved_length (data : List Nat) (dst src n : Nat)
    (hs : src + n ≤ data.length) (hd : dst + n ≤ data.length) :
    (data.take dst ++ (data.drop src).take n ++ data.drop (dst + n)).length = data.length := by
  simp [List.length_append, List.length_take, List.length_drop]
  omega

theorem moved_getElem? (data : List Nat) (dst src n i : Nat)
    (hs : src + n ≤ data.length) (hd : dst + n ≤ data.length) :
    (data.take dst ++ (data.drop src).take n ++ data.drop (dst + n))[i]?
      = if dst ≤ i ∧ i < dst + n then data[src + (i - dst)]? else data[i]? := by
  by_cases h1 : i < dst
  · have : ¬ (dst ≤ i ∧ i < dst + n) := by omega
    rw [if_neg this, List.append_assoc, List.getElem?_append_left (by simp; omega)]
    simp [List.getElem?_take, h1]
  · by_cases h2 : i < dst + n
    · have : dst ≤ i ∧ i < dst + n := by omega
      rw [if_pos this, List.append_assoc, List.getElem?_append_right (by simp; omega),
        List.getElem?_append_left (by simp; omega)]
      simp [List.getElem?_take, List.getElem?_drop]
      have e : (dst ⊓ data.length) = dst := by omega
      rw [e, if_pos (by omega)]
    · have : ¬ (dst ≤ i ∧ i < dst + n) := by omega
      rw [if_neg this, List.getElem?_append_right (by simp; omega)]
      simp [List.getElem?_drop]
      congr 1
      omega


theorem compacted_init (data : List Nat) : Compacted data 1 data := by
  refine ⟨rfl, fun i => ?_⟩
  split
  · congr 1; omega
  · rfl

theorem compacted_step (data d : List Nat) (k : Nat) (hk : 1 ≤ k)
    (h : Compacted data k d) (hs : 5 * k + 4 ≤ data.length) :
    ∃ d1, memmove d (4 * k) (5 * k) 4 = .ok d1 ∧ Compacted data (k + 1) d1 := by
  obtain ⟨hl, hi⟩ := h
  have hs1 : 5 * k + 4 ≤ d.length := by omega
  have hd1 : 4 * k + 4 ≤ d.length := by omega
  refine ⟨_, memmove_eq_ok d _ _ _ hs1 hd1, ?_, fun i => ?_⟩
  · rw [moved_length d _ _ _ hs1 hd1, hl]
  · rw [moved_getElem? d _ _ _ _ hs1 hd1]
    by_cases h1 : i < 4 * k
    · rw [if_neg (by omega), if_pos (by omega), hi, if_pos h1]
    · by_cases h2 : i < 4 * k + 4
      · rw [if_pos (by omega), if_pos (by omega), hi, if_neg (by omega)]
        congr 1; omega
      · rw [if_neg (by omega), if_neg (by omega), hi, if_neg (by omega)]

theorem unpackLoop_ok (data : List Nat) (width : Int) :
    ∀ (fuel k : Nat) (d : List Nat), 1 ≤ k → width ≤ 4 * (k : Int) + fuel →
      Compacted data k d →
      (∀ j : Nat, k ≤ j → 4 * (j : Int) < width → 5 * j + 4 ≤ data.length) →
      ∃ r, unpackLoop width fuel (5 * k) (4 * k) d = .ok r ∧
        Compacted data (max k ((width + 3) / 4).toNat) r := by
  intro fuel
  induction fuel with
  | zero =>
    intro k d hk hf hc _
    have hn : ¬ (((4 * k : Nat) : Int) < width) := by omega
    refine ⟨d, by simp only [unpackLoop, if_neg hn], ?_⟩
    have : max k ((width + 3) / 4).toNat = k := by omega
    rw [this]; exact hc
  | succ fuel ih =>
    intro k d hk hf hc hb
    by_cases hlt : ((4 * k : Nat) : Int) < width
    · obtain ⟨d1, hm, hc1⟩ := compacted_step data d k hk hc (hb k (Nat.le_refl k) (by omega))
      obtain ⟨r, hr, hcr⟩ := ih (k + 1) d1 (by omega) (by omega) hc1
        (fun j hj hw => hb j (by omega) hw)
      refine ⟨r, ?_, ?_⟩
      · have e5 : 5 * k + 5 = 5 * (k + 1) := by omega
        have e4 : 4 * k + 4 = 4 * (k + 1) := by omega
        simp only [unpackLoop, if_pos hlt, hm, e5, e4]
        exact hr
      · have : max k ((width + 3) / 4).toNat = max (k + 1) ((width + 3) / 4).toNat := by omega
        rw [this]; exact hcr
    · refine ⟨d, by simp only [unpackLoop, if_neg hlt], ?_⟩
      have : max k ((width + 3) / 4).toNat = k := by omega
      rw [this]; exact hc

theorem unpackLoop_error (width : Int) (len K : Nat) (hK : 4 * (K : Int) < width)
    (hbad : len < 5 * K + 4) :
    ∀ (fuel k : Nat) (d : List Nat), 1 ≤ k → k ≤ K → K < k + fuel → d.length = len →
      unpackLoop width fuel (5 * k) (4 * k) d = .error .outOfBounds := by
  intro fuel
  induction fuel with
  | zero => intro k d _ h1 h2; omega
  | succ fuel ih =>
    intro k d hk h1 h2 hl
    have hlt : ((4 * k : Nat) : Int) < width := by omega
    by_cases hs : 5 * k + 4 ≤ len
    · have hs1 : 5 * k + 4 ≤ d.length := by omega
      have hd1 : 4 * k + 4 ≤ d.length := by omega
      have e5 : 5 * k + 5 = 5 * (k + 1) := by omega
      have e4 : 4 * k + 4 = 4 * (k + 1) := by omega
      simp only [unpackLoop, if_pos hlt, memmove_eq_ok d _ _ _ hs1 hd1, e5]
      rw [e4]
      exact ih (k + 1) _ (by omega) (by omega) (by omega)
        (by rw [← e4, moved_length d _ _ _ hs1 hd1, hl])
    · simp only [unpackLoop, if_pos hlt, memmove_eq_error d _ _ _ (show d.length < 5 * k + 4 by omega)]


theorem unpack_ok (data : List Nat) (n : Int)
    (h : n ≤ 4 ∨ 5 * ((n + 3) / 4) - 1 ≤ (data.length : Int)) :
    ∃ r, unpack data n = .ok r ∧ r.length = data.length ∧
      ∀ i : Nat, r[i]? =
        if (i : Int) < 4 * ((n + 3) / 4) then data[5 * (i / 4) + i % 4]? else data[i]? := by
  obtain ⟨r, hr, hl, hi⟩ := unpackLoop_ok data n n.toNat 1 data (Nat.le_refl 1) (by omega)
    (compacted_init data) (fun j hj hw => by omega)
  refine ⟨r, hr, hl, fun i => ?_⟩
  rw [hi]
  by_cases h1 : (i : Int) < 4 * ((n + 3) / 4)
  · rw [if_pos h1, if_pos (by omega)]
  · rw [if_neg h1]
    by_cases h2 : i < 4 * max 1 ((n + 3) / 4).toNat
    · rw [if_pos h2]
      congr 1; omega
    · rw [if_neg h2]

theorem unpack_error (data : List Nat) (n : Int)
    (h : ¬ (n ≤ 4 ∨ 5 * ((n + 3) / 4) - 1 ≤ (data.length : Int))) :
    unpack data n = .error .outOfBounds := by
  have hK : 4 * ((((n + 3) / 4 - 1).toNat : Nat) : Int) < n := by omega
  exact unpackLoop_error n data.length ((n + 3) / 4 - 1).toNat hK (by omega) n.toNat 1 data
    (Nat.le_refl 1) (by omega) (by omega) rfl


/-! ## Concatenations of chunks of equal length -/

theorem length_flatMap_range' (f : Nat → List Nat) (w : Nat) :
    ∀ (n s : Nat), (∀ j, s ≤ j → j < s + n → (f j).length = w) →
      ((List.range' s n).flatMap f).length = n * w := by
  intro n
  induction n with
  | zero => intro s _; simp
  | succ n ih =>
    intro s h
    rw [List.range'_succ, List.flatMap_cons, List.length_append, ih (s + 1) (fun j h1 h2 => h j (by omega) (by omega)),
      h s (Nat.le_refl s) (by omega), Nat.succ_mul]
    omega

theorem getElem?_flatMap_range' (f : Nat → List Nat) (w : Nat) :
    ∀ (n s j k : Nat), (∀ j, s ≤ j → j < s + n → (f j).length = w) → j < n → k < w →
      ((List.range' s n).flatMap f)[j * w + k]? = (f (s + j))[k]? := by
  intro n
  induction n with
  | zero => intro s j k _ hj; omega
  | succ n ih =>
    intro s j k h hj hk
    have h0 : (f s).length = w := h s (Nat.le_refl s) (by omega)
    rw [List.range'_succ, List.flatMap_cons]
    cases j with
    | zero =>
      rw [List.getElem?_append_left (by omega)]
      simp
    | succ j =>
      have e : (j + 1) * w + k - (f s).length = j * w + k := by
        rw [Nat.succ_mul, h0]; omega
      rw [List.getElem?_append_right (by rw [Nat.succ_mul, h0]; omega), e,
        ih (s + 1) j k (fun i h1 h2 => h i (by omega) (by omega)) (by omega) hk]
      congr 2; omega

/-! ## The line loop of the main pass -/

theorem fread_line (file : List Nat) (L line : Nat) (hL : 0 < L)
    (h : (line + 1) * L ≤ file.length) :
    fread file (line * L) L = some (inputLine file L line, (line + 1) * L) := by
  have : line * L + L ≤ file.length := by rw [Nat.succ_mul] at h; exact h
  simp [fread, hL, this, inputLine, Nat.succ_mul]

theorem inputLine_length (file : List Nat) (L line : Nat)
    (h : (line + 1) * L ≤ file.length) : (inputLine file L line).length = L := by
  rw [Nat.succ_mul] at h
  simp [inputLine]
  omega

theorem mainLoop_eq (file : List Nat) (L : Nat) (width : Int) (shift : Nat)
    (hL : 0 < L) (hw : 0 < width) (hs : shift + width.toNat ≤ L)
    (hfit : width ≤ 4 ∨ 5 * ((width + 3) / 4) - 1 ≤ (L : Int)) :
    ∀ (n line : Nat) (out : List Nat), (line + n) * L ≤ file.length →
      mainLoop file L width shift n (line * L) out
        = (out ++ (List.range' line n).flatMap
            (fun j => rowBytes (inputLine file L j) width shift), none) := by
  intro n
  induction n with
  | zero => intro line out _; simp [mainLoop]
  | succ n ih =>
    intro line out h
    have h1 : (line + 1) * L ≤ file.length := by
      have : (line + 1) * L ≤ (line + (n + 1)) * L := Nat.mul_le_mul_right L (by omega)
      omega
    have hlen := inputLine_length file L line h1
    obtain ⟨r, hr, hrl, -⟩ := unpack_ok (inputLine file L line) width (by rw [hlen]; exact hfit)
    have hne : width ≠ 0 := by omega
    have hfw : fwrite r shift width = .ok (some ((r.drop shift).take width.toNat)) := by
      have : 0 < width ∧ shift + width.toNat ≤ r.length := ⟨hw, by omega⟩
      simp [fwrite, hne, this]
    have hrow : rowBytes (inputLine file L line) width shift = (r.drop shift).take width.toNat := by
      simp [rowBytes, hr, hfw]
    rw [mainLoop, fread_line file L line hL h1]
    simp only [hr, hfw]
    rw [ih (line + 1) _ (by rw [show line + 1 + n = line + (n + 1) by omega]; exact h),
      List.range'_succ, List.flatMap_cons, hrow, List.append_assoc]

/-! ## One line of the main pass -/

theorem rowBytes_spec (data : List Nat) (width : Int) (shift : Nat) (hw : 0 < width)
    (hs : shift + width.toNat ≤ data.length)
    (hfit : width ≤ 4 ∨ 5 * ((width + 3) / 4) - 1 ≤ (data.length : Int)) :
    (rowBytes data width shift).length = width.toNat ∧
      ∀ k : Nat, k < width.toNat → (rowBytes data width shift)[k]? =
        if ((shift + k : Nat) : Int) < 4 * ((width + 3) / 4) then
          data[5 * ((shift + k) / 4) + (shift + k) % 4]?
        else data[shift + k]? := by
  obtain ⟨r, hr, hrl, hi⟩ := unpack_ok data width hfit
  have hne : width ≠ 0 := by omega
  have hfw : fwrite r shift width = .ok (some ((r.drop shift).take width.toNat)) := by
    have : 0 < width ∧ shift + width.toNat ≤ r.length := ⟨hw, by omega⟩
    simp [fwrite, hne, this]
  have hrow : rowBytes data width shift = (r.drop shift).take width.toNat := by
    simp [rowBytes, hr, hfw]
  rw [hrow]
  refine ⟨by simp [List.length_take, List.length_drop]; omega, fun k hk => ?_⟩
  rw [List.getElem?_take, if_pos hk, List.getElem?_drop, hi]

/-! ## The visualisation pass: lemmas -/

theorem pixelLoop_eq (t : List (List Nat)) (data : List Nat) (line : Nat) :
    ∀ (n pos : Nat) (body : List Nat), pos + n ≤ data.length →
      pixelLoop (some t) data line n pos body
        = (body ++ (List.range' pos n).flatMap
            (fun p => makePixel (tableAt t (line % 2) (p % 2)) (data.getD p 0)), none) := by
  intro n
  induction n with
  | zero => intro pos body _; simp [pixelLoop]
  | succ n ih =>
    intro pos body h
    have hp : pos < data.length := by omega
    have hv : data[pos]? = some (data.getD pos 0) := by
      simp [List.getD, List.getElem?_eq_getElem hp]
    rw [pixelLoop]
    simp only [hv]
    rw [ih (pos + 1) _ (by omega), List.range'_succ, List.flatMap_cons, List.append_assoc]

theorem bayerLoop_eq (file : List Nat) (L : Nat) (width : Int) (t : List (List Nat))
    (hL : 0 < L) (hw : width.toNat ≤ L)
    (hfit : width ≤ 4 ∨ 5 * ((width + 3) / 4) - 1 ≤ (L : Int)) :
    ∀ (n line : Nat) (body : List Nat), (line + n) * L ≤ file.length →
      bayerLoop file L width (some t) n line (line * L) body
        = (body ++ (List.range' line n).flatMap
            (fun r => rowPixels t (inputLine file L r) width r), none) := by
  intro n
  induction n with
  | zero => intro line body _; simp [bayerLoop]
  | succ n ih =>
    intro line body h
    have h1 : (line + 1) * L ≤ file.length := by
      have : (line + 1) * L ≤ (line + (n + 1)) * L := Nat.mul_le_mul_right L (by omega)
      omega
    have hlen := inputLine_length file L line h1
    obtain ⟨r, hr, hrl, -⟩ := unpack_ok (inputLine file L line) width (by rw [hlen]; exact hfit)
    have hrow : rowPixels t (inputLine file L line) width line
        = (List.range' 0 width.toNat).flatMap
            (fun p => makePixel (tableAt t (line % 2) (p % 2)) (r.getD p 0)) := by
      simp [rowPixels, hr]
    rw [bayerLoop, fread_line file L line hL h1]
    simp only [hr]
    rw [pixelLoop_eq t r line width.toNat 0 body (by omega)]
    simp only []
    rw [ih (line + 1) _ (by rw [show line + 1 + n = line + (n + 1) by omega]; exact h),
      List.range'_succ, List.flatMap_cons, hrow, List.append_assoc]

theorem makePixel_length (index value : Nat) : (makePixel index value).length = 3 := by
  simp [makePixel]

theorem makePixel_getElem? (index value ch : Nat) (hi : index < 3) (hc : ch < 3) :
    (makePixel index value)[ch]? = some (if ch = index then value else 0) := by
  interval_cases index <;> interval_cases ch <;> simp [makePixel]

theorem rowPixels_spec (t : List (List Nat)) (data : List Nat) (width : Int) (line : Nat)
    (hw : width.toNat ≤ data.length)
    (hfit : width ≤ 4 ∨ 5 * ((width + 3) / 4) - 1 ≤ (data.length : Int)) :
    (rowPixels t data width line).length = width.toNat * 3 ∧
      ∀ c ch : Nat, c < width.toNat → ch < 3 →
        ∃ v, sample data c = some v ∧
          (rowPixels t data width line)[c * 3 + ch]?
            = (makePixel (tableAt t (line % 2) (c % 2)) v)[ch]? := by
  obtain ⟨r, hr, hrl, hi⟩ := unpack_ok data width hfit
  have hrow : rowPixels t data width line
      = (List.range' 0 width.toNat).flatMap
          (fun p => makePixel (tableAt t (line % 2) (p % 2)) (r.getD p 0)) := by
    simp [rowPixels, hr]
  rw [hrow]
  refine ⟨length_flatMap_range' _ 3 _ 0 (fun j _ _ => makePixel_length _ _), fun c ch hc hch => ?_⟩
  have hcl : c < r.length := by omega
  have hrc : r[c]? = sample data c := by
    rw [hi, if_pos (by omega)]; rfl
  refine ⟨r.getD c 0, ?_, ?_⟩
  · rw [← hrc]; simp [List.getD, List.getElem?_eq_getElem hcl]
  · rw [getElem?_flatMap_range' _ 3 _ 0 c ch (fun j _ _ => makePixel_length _ _) hc hch]
    simp

/-! ## The geometry checks -/

theorem toInt32_of_lt (n : Nat) (h : n < 2 ^ 31) : toInt32 n = (n : Int) := by
  have h1 : n % 2 ^ 32 = n := Nat.mod_eq_of_lt (by omega)
  simp only [toInt32, h1, if_pos h]

theorem convert_accept (format : Nat) (W H L : Nat) (b : Bool) (file : List Nat)
    (hW : 2 ≤ W) (hH : 2 ≤ H) (hL : W ≤ L) (hlen : file.length = L * H)
    (hsz : file.length < 2 ^ 31) :
    convert format W H b file = passes format W H W H L b file := by
  have h1 : toInt32 file.length = (L : Int) * (H : Int) := by
    rw [toInt32_of_lt _ hsz, hlen, Nat.cast_mul]
  have h2 : ¬ ((L : Int) * (H : Int) = -1) := by
    have : (0 : Int) ≤ (L : Int) * (H : Int) := by positivity
    omega
  have h3 : ¬ ((W : Int) < 2 ∨ (H : Int) < 2) := by omega
  have h4 : Int.tdiv ((L : Int) * (H : Int)) (H : Int) = L :=
    Int.mul_tdiv_cancel _ (by omega)
  have h5 : Int.tmod ((L : Int) * (H : Int)) (H : Int) = 0 := Int.mul_tmod_left _ _
  have h6 : ¬ ((L : Int) < (W : Int)) := by omega
  simp only [convert, h1, h2, h3, h4, h5, h6, if_false, ne_eq, not_true_eq_false]

/-! ## The main pass: lemmas -/

theorem mainLoop_length (file : List Nat) (L : Nat) (width : Int) (shift : Nat) :
    ∀ (n pos : Nat) (out res : List Nat),
      mainLoop file L width shift n pos out = (res, none) →
        res.length = out.length + n * width.toNat := by
  intro n
  induction n with
  | zero =>
    intro pos out res h
    simp [mainLoop] at h
    simp [h]
  | succ n ih =>
    intro pos out res h
    rw [mainLoop] at h
    cases hf : fread file pos L with
    | none => simp [hf] at h
    | some x =>
      obtain ⟨data, pos1⟩ := x
      simp only [hf] at h
      cases hu : unpack data width with
      | error e => simp [hu] at h
      | ok data1 =>
        simp only [hu] at h
        cases hwr : fwrite data1 shift width with
        | error e => simp [hwr] at h
        | ok o =>
          cases o with
          | none => simp [hwr] at h
          | some bytes =>
            simp only [hwr] at h
            have hb : bytes.length = width.toNat := by
              unfold fwrite at hwr
              split at hwr
              · simp at hwr
              · split at hwr
                · rename_i hc
                  simp only [Except.ok.injEq, Option.some.injEq] at hwr
                  rw [← hwr]
                  simp [List.length_take, List.length_drop]
                  omega
                · simp at hwr
            rw [ih pos1 _ res h, List.length_append, hb, Nat.succ_mul]
            omega

theorem mainPass_eq (p : Phase) (W H L : Nat) (file : List Nat)
    (hW : 2 ≤ W) (hH : 2 ≤ H) (hL : W ≤ L) (hlen : file.length = L * H)
    (hpos : 0 < W - p.left - p.right)
    (hfit : ((W - p.left - p.right : Nat) : Int) ≤ 4 ∨
      5 * ((((W - p.left - p.right : Nat) : Int) + 3) / 4) - 1 ≤ (L : Int)) :
    mainPass p.code W H L file
      = ((List.range' p.top (H - p.top - p.bottom)).flatMap
          (fun j => rowBytes (inputLine file L j) ((W - p.left - p.right : Nat) : Int) p.left),
         none) := by
  have key : ∀ (top left : Nat), top ≤ 1 → left ≤ 1 → 0 < W - left - left →
      (((W - left - left : Nat) : Int) ≤ 4 ∨
        5 * ((((W - left - left : Nat) : Int) + 3) / 4) - 1 ≤ (L : Int)) →
      mainLoop file L ((W : Int) - 2 * left) left ((H : Int) - 2 * top).toNat (top * L) []
        = ((List.range' top (H - top - top)).flatMap
            (fun j => rowBytes (inputLine file L j) ((W - left - left : Nat) : Int) left),
           none) := by
    intro top left ht hl hp hf
    have e1 : (W : Int) - 2 * left = ((W - left - left : Nat) : Int) := by omega
    have e2 : ((H : Int) - 2 * top).toNat = H - top - top := by omega
    rw [e1, e2, mainLoop_eq file L ((W - left - left : Nat) : Int) left (by omega) (by omega)
      (by omega) hf (H - top - top) top []
      (by rw [hlen, Nat.mul_comm L H]; exact Nat.mul_le_mul_right L (by omega))]
    simp
  cases p
  · have := key 0 1 (by omega) (by omega) hpos hfit
    simpa [mainPass, Phase.code, Phase.top, Phase.bottom, Phase.left, Phase.right,
      V4L2_PIX_FMT_SRGGB10P, V4L2_PIX_FMT_SGBRG10P, V4L2_PIX_FMT_SBGGR10P, v4l2_fourcc] using this
  · have := key 0 0 (by omega) (by omega) hpos hfit
    simpa [mainPass, Phase.code, Phase.top, Phase.bottom, Phase.left, Phase.right,
      V4L2_PIX_FMT_SRGGB10P, V4L2_PIX_FMT_SGBRG10P, V4L2_PIX_FMT_SBGGR10P,
      V4L2_PIX_FMT_SGRBG10P, v4l2_fourcc] using this
  · have := key 1 1 (by omega) (by omega) hpos hfit
    simpa [mainPass, Phase.code, Phase.top, Phase.bottom, Phase.left, Phase.right,
      V4L2_PIX_FMT_SRGGB10P, V4L2_PIX_FMT_SGBRG10P, V4L2_PIX_FMT_SBGGR10P, v4l2_fourcc] using this
  · have := key 1 0 (by omega) (by omega) hpos hfit
    simpa [mainPass, Phase.code, Phase.top, Phase.bottom, Phase.left, Phase.right,
      V4L2_PIX_FMT_SRGGB10P, V4L2_PIX_FMT_SGBRG10P, V4L2_PIX_FMT_SBGGR10P, v4l2_fourcc] using this

theorem mainPass_phase (p : Phase) (width height line_len : Int) (file : List Nat) :
    mainPass p.code width height line_len file
      = mainLoop file line_len.toNat (width - 2 * p.left) p.left
          (height - 2 * p.top).toNat (p.top * line_len.toNat) [] := by
  cases p <;>
    simp [mainPass, Phase.code, Phase.top, Phase.left, V4L2_PIX_FMT_SRGGB10P,
      V4L2_PIX_FMT_SGBRG10P, V4L2_PIX_FMT_SBGGR10P, V4L2_PIX_FMT_SGRBG10P, v4l2_fourcc]

theorem selectIndexes_phase (p : Phase) :
    ∃ t, selectIndexes p.code = some t ∧
      ∀ i j : Nat, tableAt t (i % 2) (j % 2) = p.colour (i % 2) (j % 2) := by
  cases p
  · refine ⟨RGGB_indexes, by decide, fun i j => ?_⟩
    rcases Nat.mod_two_eq_zero_or_one i with hi | hi <;>
      rcases Nat.mod_two_eq_zero_or_one j with hj | hj <;> rw [hi, hj] <;> rfl
  · refine ⟨GRBG_indexes, by decide, fun i j => ?_⟩
    rcases Nat.mod_two_eq_zero_or_one i with hi | hi <;>
      rcases Nat.mod_two_eq_zero_or_one j with hj | hj <;> rw [hi, hj] <;> rfl
  · refine ⟨GBRG_indexes, by decide, fun i j => ?_⟩
    rcases Nat.mod_two_eq_zero_or_one i with hi | hi <;>
      rcases Nat.mod_two_eq_zero_or_one j with hj | hj <;> rw [hi, hj] <;> rfl
  · refine ⟨BGGR_indexes, by decide, fun i j => ?_⟩
    rcases Nat.mod_two_eq_zero_or_one i with hi | hi <;>
      rcases Nat.mod_two_eq_zero_or_one j with hj | hj <;> rw [hi, hj] <;> rfl

theorem colour_lt (p : Phase) (i j : Nat) : p.colour (i % 2) (j % 2) < 3 := by
  cases p <;>
    rcases Nat.mod_two_eq_zero_or_one i with hi | hi <;>
      rcases Nat.mod_two_eq_zero_or_one j with hj | hj <;> rw [hi, hj] <;> decide

/-! ## Both passes on an accepted input -/

theorem bayerPass_eq (p : Phase) (W H L : Nat) (file : List Nat)
    (hW : 2 ≤ W) (hL : W ≤ L) (hlen : file.length = L * H)
    (hfit : W ≤ 4 ∨ 5 * ((W + 3) / 4) - 1 ≤ L) :
    ∃ t, selectIndexes p.code = some t ∧
      (∀ i j : Nat, tableAt t (i % 2) (j % 2) = p.colour (i % 2) (j % 2)) ∧
      bayerPass p.code W H W H L file
        = ((pnmHeader W H, (List.range' 0 H).flatMap
            (fun r => rowPixels t (inputLine file L r) (W : Int) r)), none) := by
  obtain ⟨t, ht, htab⟩ := selectIndexes_phase p
  have := bayerLoop_eq file L (W : Int) t (by omega) (by omega) (by omega) H 0 []
    (by rw [hlen, Nat.mul_comm L H]; exact Nat.mul_le_mul_right L (by omega))
  simp only [Nat.zero_mul] at this
  exact ⟨t, ht, htab, by simp [bayerPass, ht, this]⟩

theorem passes_bayer (format : Nat) (size0 size1 width height line_len : Int)
    (file : List Nat) :
    (passes format size0 size1 width height line_len true file).bayer
      = some (bayerPass format size0 size1 width height line_len file).1 := by
  unfold passes
  rcases bayerPass format size0 size1 width height line_len file with ⟨pnm, _ | e⟩
  · rcases mainPass format width height line_len file with ⟨out, e2⟩
    simp
  · simp

theorem convert_phase (p : Phase) (W H L : Nat) (b : Bool) (file : List Nat)
    (hW : 2 ≤ W) (hH : 2 ≤ H) (hL : W ≤ L) (hlen : file.length = L * H)
    (hsz : file.length < 2 ^ 31) (hpos : 0 < W - p.left - p.right)
    (hfit : W ≤ 4 ∨ 5 * ((W + 3) / 4) - 1 ≤ L) :
    ∃ t, selectIndexes p.code = some t ∧
      convert p.code W H b file
        = ⟨none,
            if b = true then
              some (pnmHeader W H, (List.range' 0 H).flatMap
                (fun r => rowPixels t (inputLine file L r) (W : Int) r))
            else none,
            some ((List.range' p.top (H - p.top - p.bottom)).flatMap
              (fun j => rowBytes (inputLine file L j)
                ((W - p.left - p.right : Nat) : Int) p.left))⟩ := by
  obtain ⟨t, ht, -, hb⟩ := bayerPass_eq p W H L file hW hL hlen hfit
  have hmain := mainPass_eq p W H L file hW hH hL hlen hpos (by omega)
  refine ⟨t, ht, ?_⟩
  rw [convert_accept p.code W H L b file hW hH hL hlen hsz]
  cases b with
  | false => simp [passes, hmain]
  | true => simp [passes, hb, hmain]

theorem rowBytes_line (p : Phase) (W H L : Nat) (file : List Nat)
    (hL : W ≤ L) (hlen : file.length = L * H) (hpos : 0 < W - p.left - p.right)
    (hfit : W ≤ 4 ∨ 5 * ((W + 3) / 4) - 1 ≤ L) (j : Nat) (hj : j < H) :
    (rowBytes (inputLine file L j) ((W - p.left - p.right : Nat) : Int) p.left).length
        = W - p.left - p.right ∧
      ∀ k : Nat, k < W - p.left - p.right →
        (rowBytes (inputLine file L j) ((W - p.left - p.right : Nat) : Int) p.left)[k]? =
          if p.left + k < 4 * ((W - p.left - p.right + 3) / 4) then
            sample (inputLine file L j) (p.left + k)
          else (inputLine file L j)[p.left + k]? := by
  have hjl : (j + 1) * L ≤ file.length := by
    rw [hlen, Nat.mul_comm L H]; exact Nat.mul_le_mul_right L (by omega)
  have hil := inputLine_length file L j hjl
  obtain ⟨h1, h2⟩ := rowBytes_spec (inputLine file L j) ((W - p.left - p.right : Nat) : Int)
    p.left (by omega) (by rw [hil]; omega) (by rw [hil]; omega)
  refine ⟨by omega, fun k hk => ?_⟩
  rw [h2 k (by omega)]
  by_cases hc : p.left + k < 4 * ((W - p.left - p.right + 3) / 4)
  · rw [if_pos hc, if_pos (by omega)]; rfl
  · rw [if_neg hc, if_neg (by omega)]

theorem convert_main (p : Phase) (W H L : Nat) (b : Bool) (file : List Nat)
    (hW : 2 ≤ W) (hH : 2 ≤ H) (hL : W ≤ L) (hlen : file.length = L * H)
    (hsz : file.length < 2 ^ 31) (hpos : 0 < W - p.left - p.right)
    (hfit : W ≤ 4 ∨ 5 * ((W + 3) / 4) - 1 ≤ L) :
    ∃ out, (convert p.code W H b file).status = none ∧
      (convert p.code W H b file).out = some out ∧
      out.length = (H - p.top - p.bottom) * (W - p.left - p.right) ∧
      ∀ j k : Nat, j < H - p.top - p.bottom → k < W - p.left - p.right →
        out[j * (W - p.left - p.right) + k]? =
          if p.left + k < 4 * ((W - p.left - p.right + 3) / 4) then
            sample (inputLine file L (j + p.top)) (p.left + k)
          else (inputLine file L (j + p.top))[p.left + k]? := by
  obtain ⟨t, -, hc⟩ := convert_phase p W H L b file hW hH hL hlen hsz hpos hfit
  have hrow := rowBytes_line p W H L file hL hlen hpos hfit
  rw [hc]
  refine ⟨_, rfl, rfl, ?_, fun j k hj hk => ?_⟩
  · rw [length_flatMap_range' _ (W - p.left - p.right) _ _
      (fun j _ h2 => (hrow j (by omega)).1)]
  · rw [getElem?_flatMap_range' _ (W - p.left - p.right) _ p.top j k
      (fun j _ h2 => (hrow j (by omega)).1) hj hk,
      (hrow (p.top + j) (by omega)).2 k hk, Nat.add_comm p.top j]

theorem sample_isSome (file : List Nat) (W H L j i : Nat) (hlen : file.length = L * H)
    (hL : W ≤ L) (hfit : W ≤ 4 ∨ 5 * ((W + 3) / 4) - 1 ≤ L) (hj : j < H) (hi : i < W) :
    ∃ v, sample (inputLine file L j) i = some v := by
  have hjl : (j + 1) * L ≤ file.length := by
    rw [hlen, Nat.mul_comm L H]; exact Nat.mul_le_mul_right L (by omega)
  have hil := inputLine_length file L j hjl
  have hlt : 5 * (i / 4) + i % 4 < (inputLine file L j).length := by
    rw [hil]; omega
  exact ⟨_, List.getElem?_eq_getElem hlt⟩

/-! ## The indices the unpack loop touches -/

theorem mem_unpackAccesses (width : Int) :
    ∀ (fuel k i : Nat), i ∈ unpackAccesses width fuel (5 * k) (4 * k) ↔
      ∃ j : Nat, k ≤ j ∧ j < k + fuel ∧ 4 * (j : Int) < width ∧
        ((5 * j ≤ i ∧ i < 5 * j + 4) ∨ (4 * j ≤ i ∧ i < 4 * j + 4)) := by
  intro fuel
  induction fuel with
  | zero =>
    intro k i
    simp only [unpackAccesses, List.not_mem_nil, false_iff]
    rintro ⟨j, h1, h2, -⟩
    omega
  | succ fuel ih =>
    intro k i
    by_cases hlt : ((4 * k : Nat) : Int) < width
    · have e5 : 5 * k + 5 = 5 * (k + 1) := by omega
      have e4 : 4 * k + 4 = 4 * (k + 1) := by omega
      simp only [unpackAccesses, if_pos hlt, List.mem_append, List.mem_range'_1, e5]
      rw [e4, ih (k + 1) i]
      constructor
      · rintro ((h | h) | ⟨j, h1, h2, h3, h4⟩)
        · exact ⟨k, Nat.le_refl k, by omega, by omega, Or.inl (by omega)⟩
        · exact ⟨k, Nat.le_refl k, by omega, by omega, Or.inr (by omega)⟩
        · exact ⟨j, by omega, by omega, h3, h4⟩
      · rintro ⟨j, h1, h2, h3, h4⟩
        by_cases hj : j = k
        · subst hj
          rcases h4 with h4 | h4
          · exact Or.inl (Or.inl (by omega))
          · exact Or.inl (Or.inr (by omega))
        · exact Or.inr ⟨j, by omega, by omega, h3, h4⟩
    · simp only [unpackAccesses, if_neg hlt, List.not_mem_nil, false_iff]
      rintro ⟨j, h1, h2, h3, -⟩
      omega

/-! ## Bytes of an input line -/

theorem inputLine_getElem? (file : List Nat) (L j i : Nat) (hi : i < L) :
    (inputLine file L j)[i]? = file[j * L + i]? := by
  unfold inputLine
  rw [List.getElem?_take, if_pos hi, List.getElem?_drop]

theorem markedFile_length (n m : Nat) : (markedFile n m).length = n := by
  simp [markedFile]

theorem markedFile_getElem? (n m i : Nat) (hi : i < n) :
    (markedFile n m)[i]? = some (if i = m then 1 else 0) := by
  simp [markedFile, List.getElem?_map, List.getElem?_range hi]

/-! ## The claims of the specification -/

/-- C1. Line unpacking: when the buffer holds the source bytes of every group
(`n ≤ 4` and `n ≤ length`, or `5 * ceil(n / 4) - 1 ≤ length`), the unpack loop
with bound `n` succeeds and byte `i < n` of the result is the original byte at
offset `5 * floor(i / 4) + i mod 4`; the first `n` result bytes are the same for
every buffer of the same length that agrees with `data` outside the offsets
congruent to 4 modulo 5. -/
theorem unpack_drops_fifth_bytes (data : List Nat) (n : Int)
    (h : (n ≤ 4 ∧ n ≤ (data.length : Int)) ∨ 5 * ((n + 3) / 4) - 1 ≤ (data.length : Int)) :
    ∃ r, unpack data n = .ok r ∧
      (∀ i : Nat, (i : Int) < n →
        ∃ v, r[i]? = some v ∧ data[5 * (i / 4) + i % 4]? = some v) ∧
      ∀ data2 : List Nat, data2.length = data.length →
        (∀ j : Nat, j % 5 ≠ 4 → data2[j]? = data[j]?) →
        ∃ r2, unpack data2 n = .ok r2 ∧ ∀ i : Nat, (i : Int) < n → r2[i]? = r[i]? := by
  have hfit : n ≤ 4 ∨ 5 * ((n + 3) / 4) - 1 ≤ (data.length : Int) := by omega
  obtain ⟨r, hr, -, hi⟩ := unpack_ok data n hfit
  refine ⟨r, hr, fun i hin => ?_, fun data2 hl hagree => ?_⟩
  · have hlt : 5 * (i / 4) + i % 4 < data.length := by omega
    refine ⟨data[5 * (i / 4) + i % 4], ?_, List.getElem?_eq_getElem hlt⟩
    rw [hi, if_pos (by omega), List.getElem?_eq_getElem hlt]
  · obtain ⟨r2, hr2, -, hi2⟩ := unpack_ok data2 n (by rw [hl]; exact hfit)
    refine ⟨r2, hr2, fun i hin => ?_⟩
    rw [hi, hi2, if_pos (by omega), if_pos (by omega)]
    exact hagree _ (by omega)

/-- Witness of C1: two packed groups unpacked with bound 8. -/
theorem unpack_drops_fifth_bytes_witness :
    (((8 : Int) ≤ 4 ∧ (8 : Int) ≤ (([10, 20, 30, 40, 99, 50, 60, 70, 80, 98] : List Nat).length : Int)) ∨
        5 * (((8 : Int) + 3) / 4) - 1
          ≤ (([10, 20, 30, 40, 99, 50, 60, 70, 80, 98] : List Nat).length : Int)) ∧
      ∃ r, unpack [10, 20, 30, 40, 99, 50, 60, 70, 80, 98] 8 = .ok r ∧
        (∀ i : Nat, (i : Int) < 8 →
          ∃ v, r[i]? = some v ∧
            ([10, 20, 30, 40, 99, 50, 60, 70, 80, 98] : List Nat)[5 * (i / 4) + i % 4]? = some v) ∧
        ∀ data2 : List Nat,
          data2.length = ([10, 20, 30, 40, 99, 50, 60, 70, 80, 98] : List Nat).length →
          (∀ j : Nat, j % 5 ≠ 4 →
            data2[j]? = ([10, 20, 30, 40, 99, 50, 60, 70, 80, 98] : List Nat)[j]?) →
          ∃ r2, unpack data2 8 = .ok r2 ∧ ∀ i : Nat, (i : Int) < 8 → r2[i]? = r[i]? :=
  ⟨Or.inr (by decide), unpack_drops_fifth_bytes [10, 20, 30, 40, 99, 50, 60, 70, 80, 98] 8
    (Or.inr (by decide))⟩

/-- C3. Conversion without column trimming: for GreenRed (SGRBG10P) and
BlueGreen (SBGGR10P) and an input that passes the geometry checks and whose
lines hold all packed groups, the run returns 0, the output is `height - top -
bottom` lines of `width` bytes and byte `i` of output line `j` is sample `i` of
input line `j + top`. -/
theorem convert_without_column_trim (p : Phase) (W H L : Nat) (b : Bool) (file : List Nat)
    (hp : p = .GreenRed ∨ p = .BlueGreen)
    (hW : 2 ≤ W) (hH : 2 ≤ H) (hL : W ≤ L) (hlen : file.length = L * H)
    (hsz : file.length < 2 ^ 31)
    (hfit : W ≤ 4 ∨ 5 * ((W + 3) / 4) - 1 ≤ L) :
    ∃ out, (convert p.code W H b file).status = none ∧
      (convert p.code W H b file).out = some out ∧
      out.length = (H - p.top - p.bottom) * W ∧
      ∀ j i : Nat, j < H - p.top - p.bottom → i < W →
        ∃ v, out[j * W + i]? = some v ∧ sample (inputLine file L (j + p.top)) i = some v := by
  have hleft : p.left = 0 ∧ p.right = 0 := by
    rcases hp with rfl | rfl <;> exact ⟨rfl, rfl⟩
  have hw : W - p.left - p.right = W := by omega
  obtain ⟨out, h1, h2, h3, h4⟩ := convert_main p W H L b file hW hH hL hlen hsz (by omega) hfit
  rw [hw] at h3 h4
  refine ⟨out, h1, h2, h3, fun j i hj hi => ?_⟩
  obtain ⟨v, hv⟩ := sample_isSome file W H L (j + p.top) i hlen hL hfit (by omega) hi
  refine ⟨v, ?_, hv⟩
  rw [h4 j i hj hi, if_pos (by omega), hleft.1, Nat.zero_add, hv]

/-- C9. Bounds of the unpack loop: every byte index the loop with bound `n`
touches is below the buffer length exactly when `n ≤ 4` or the length is at
least `5 * ceil(n / 4) - 1`; the checked loop succeeds in exactly that case and
stops with an out-of-bounds access otherwise; and an 8 x 2 frame with 8-byte
lines passes the geometry checks of the driver and leaves the buffer. -/
theorem unpack_bounds (data : List Nat) (n : Int) :
    ((∀ i ∈ unpackAccesses n n.toNat 5 4, i < data.length) ↔
        (n ≤ 4 ∨ 5 * ((n + 3) / 4) - 1 ≤ (data.length : Int))) ∧
      ((∃ r, unpack data n = .ok r) ↔
        (n ≤ 4 ∨ 5 * ((n + 3) / 4) - 1 ≤ (data.length : Int))) ∧
      (unpack data n = .error .outOfBounds ↔
        ¬ (n ≤ 4 ∨ 5 * ((n + 3) / 4) - 1 ≤ (data.length : Int))) ∧
      convert V4L2_PIX_FMT_SGRBG10P 8 2 false (List.replicate 16 0)
        = ⟨some .outOfBounds, none, some []⟩ := by
  have hmem := mem_unpackAccesses n n.toNat 1
  simp only [Nat.mul_one] at hmem
  refine ⟨⟨fun h => ?_, fun h i hi => ?_⟩, ⟨fun h => ?_, fun h => ?_⟩, ⟨fun h => ?_, fun h => ?_⟩,
    by decide⟩
  · by_contra hc
    have := h (5 * ((n + 3) / 4 - 1).toNat + 3)
      ((hmem _).2 ⟨((n + 3) / 4 - 1).toNat, by omega, by omega, by omega, Or.inl (by omega)⟩)
    omega
  · obtain ⟨j, h1, h2, h3, h4⟩ := (hmem i).1 hi
    omega
  · by_contra hc
    obtain ⟨r, hr⟩ := h
    rw [unpack_error data n hc] at hr
    exact absurd hr (by simp)
  · obtain ⟨r, hr, -⟩ := unpack_ok data n h
    exact ⟨r, hr⟩
  · intro hc
    obtain ⟨r, hr, -⟩ := unpack_ok data n hc
    rw [hr] at h
    exact absurd h (by simp)
  · exact unpack_error data n h

/-- C4. Canonical ordering: the main pass starts `top` lines into the file and
writes from column `left`, and the colour table of the format at row parity
`(r + top) mod 2` and column parity `(c + left) mod 2` is the GRBG table at
`(r mod 2, c mod 2)`: Green, Red on even rows and Blue, Green on odd rows. -/
theorem canonical_ordering (p : Phase) (r c : Nat) (width height line_len : Int)
    (file : List Nat) :
    mainPass p.code width height line_len file
        = mainLoop file line_len.toNat (width - 2 * p.left) p.left
            (height - 2 * p.top).toNat (p.top * line_len.toNat) [] ∧
      ∃ t, selectIndexes p.code = some t ∧
        tableAt t ((r + p.top) % 2) ((c + p.left) % 2) = tableAt GRBG_indexes (r % 2) (c % 2) ∧
        tableAt GRBG_indexes (r % 2) (c % 2)
          = if r % 2 = 0 then (if c % 2 = 0 then 1 else 0) else (if c % 2 = 0 then 2 else 1) := by
  refine ⟨mainPass_phase p width height line_len file, ?_⟩
  have fin : ∀ (q : Phase) (a b : Fin 2), ∃ t, selectIndexes q.code = some t ∧
      tableAt t ((a.val + q.top) % 2) ((b.val + q.left) % 2) = tableAt GRBG_indexes a.val b.val ∧
      tableAt GRBG_indexes a.val b.val
        = if a.val = 0 then (if b.val = 0 then 1 else 0) else (if b.val = 0 then 2 else 1) := by
    intro q a b
    cases q <;> fin_cases a <;> fin_cases b <;> exact ⟨_, rfl, rfl, rfl⟩
  obtain ⟨t, h1, h2, h3⟩ := fin p ⟨r % 2, Nat.mod_lt r (by decide)⟩ ⟨c % 2, Nat.mod_lt c (by decide)⟩
  refine ⟨t, h1, ?_, h3⟩
  have e1 : (r + p.top) % 2 = (r % 2 + p.top) % 2 := by omega
  have e2 : (c + p.left) % 2 = (c % 2 + p.left) % 2 := by omega
  rw [e1, e2]
  exact h2

/-- C5. Output size and trim vector: whenever a run returns 0, the output file
holds exactly `(width - left - right) * (height - top - bottom)` bytes, with
the trim vector of the phase (`top = bottom = 1` for GreenBlue and BlueGreen,
`left = right = 1` for RedGreen and GreenBlue, nothing trimmed for GreenRed). -/
theorem output_size (p : Phase) (W H : Int) (b : Bool) (file : List Nat)
    (h : (convert p.code W H b file).status = none) :
    ∃ out, (convert p.code W H b file).out = some out ∧
      (out.length : Int) = (W - p.left - p.right) * (H - p.top - p.bottom) := by
  have hmainlen : ∀ (L : Int) (out : List Nat), 2 ≤ W → 2 ≤ H →
      mainPass p.code W H L file = (out, none) →
      (out.length : Int) = (W - p.left - p.right) * (H - p.top - p.bottom) := by
    intro L out hW hH hm
    rw [mainPass_phase] at hm
    have hl := mainLoop_length _ _ _ _ _ _ _ _ hm
    have ht : p.top ≤ 1 ∧ p.bottom = p.top ∧ p.left ≤ 1 ∧ p.right = p.left := by
      cases p <;> exact ⟨by decide, rfl, by decide, rfl⟩
    rw [hl, List.length_nil, Nat.zero_add, Nat.cast_mul, Int.toNat_of_nonneg (by omega),
      Int.toNat_of_nonneg (by omega), ht.2.1, ht.2.2.2, Int.mul_comm]
    congr 1 <;> omega
  unfold convert at h ⊢
  simp only at h ⊢
  split at h
  · simp at h
  · split at h
    · simp at h
    · rename_i hgeo
      split at h
      · simp at h
      · split at h
        · simp at h
        · rename_i h1 h2 h3
          rw [if_neg h1, if_neg hgeo, if_neg h2, if_neg h3]
          unfold passes at h ⊢
          cases b with
          | false =>
            simp only [Bool.false_eq_true, if_false] at h ⊢
            rcases hm : mainPass p.code W H (Int.tdiv (toInt32 file.length) H) file with ⟨out, e⟩
            rw [hm] at h
            simp only at h
            subst h
            exact ⟨out, rfl, hmainlen _ out (by omega) (by omega) hm⟩
          | true =>
            simp only [if_true] at h ⊢
            rcases hbp : bayerPass p.code W H W H (Int.tdiv (toInt32 file.length) H) file
              with ⟨pnm, _ | e⟩
            · rw [hbp] at h
              simp only at h ⊢
              rcases hm : mainPass p.code W H (Int.tdiv (toInt32 file.length) H) file
                with ⟨out, e⟩
              rw [hm] at h
              simp only at h
              subst h
              exact ⟨out, rfl, hmainlen _ out (by omega) (by omega) hm⟩
            · rw [hbp] at h
              simp at h

/-- C6. Bayer visualisation: for every format and an input that passes the
geometry checks and whose lines hold all packed groups, the body of the
visualisation file is `3 * width * height` bytes, and the pixel at position
`r * width + c` carries sample `c` of input line `r` in the channel the layout
of the phase gives to `(r mod 2, c mod 2)` and 0 in the two other channels. -/
theorem bayer_visualisation (p : Phase) (W H L : Nat) (file : List Nat)
    (hW : 2 ≤ W) (hH : 2 ≤ H) (hL : W ≤ L) (hlen : file.length = L * H)
    (hsz : file.length < 2 ^ 31)
    (hfit : W ≤ 4 ∨ 5 * ((W + 3) / 4) - 1 ≤ L) :
    ∃ body, (convert p.code W H true file).bayer = some (pnmHeader W H, body) ∧
      body.length = 3 * W * H ∧
      ∀ r c : Nat, r < H → c < W →
        ∃ v, sample (inputLine file L r) c = some v ∧
          ∀ ch : Nat, ch < 3 →
            body[3 * (r * W + c) + ch]?
              = some (if ch = p.colour (r % 2) (c % 2) then v else 0) := by
  obtain ⟨t, ht, htab, hb⟩ := bayerPass_eq p W H L file hW hL hlen hfit
  have hWn : ((W : Nat) : Int).toNat = W := by omega
  have hrow : ∀ r, r < H →
      (rowPixels t (inputLine file L r) (W : Int) r).length = W * 3 ∧
        ∀ c ch : Nat, c < W → ch < 3 →
          ∃ v, sample (inputLine file L r) c = some v ∧
            (rowPixels t (inputLine file L r) (W : Int) r)[c * 3 + ch]?
              = (makePixel (tableAt t (r % 2) (c % 2)) v)[ch]? := by
    intro r hr
    have hrl : (r + 1) * L ≤ file.length := by
      rw [hlen, Nat.mul_comm L H]; exact Nat.mul_le_mul_right L (by omega)
    have hil := inputLine_length file L r hrl
    have := rowPixels_spec t (inputLine file L r) (W : Int) r (by rw [hil]; omega)
      (by rw [hil]; omega)
    rw [hWn] at this
    exact this
  rw [convert_accept p.code W H L true file hW hH hL hlen hsz, passes_bayer, hb]
  refine ⟨_, rfl, ?_, fun r c hr hc => ?_⟩
  · rw [length_flatMap_range' _ (W * 3) H 0 (fun j _ h2 => (hrow j (by omega)).1)]
    ring
  · obtain ⟨v, hv⟩ := sample_isSome file W H L r c hlen hL hfit hr hc
    refine ⟨v, hv, fun ch hch => ?_⟩
    obtain ⟨v2, hv2, hpx⟩ := (hrow r hr).2 c ch hc hch
    have hvv : v2 = v := by
      rw [hv] at hv2; exact (Option.some.inj hv2).symm
    have e : 3 * (r * W + c) + ch = r * (W * 3) + (c * 3 + ch) := by ring
    rw [e, getElem?_flatMap_range' _ (W * 3) H 0 r (c * 3 + ch)
      (fun j _ h2 => (hrow j (by omega)).1) hr (by omega), Nat.zero_add, hpx, hvv, htab,
      makePixel_getElem? _ _ _ (colour_lt p r c) hch]

/-- C2, evaluated on a frame of width 6 in format SRGGB10P: the fourth byte of
each output line is the byte at offset 4 of the input line (the packed
low-bits byte, 104 and 204 here), not sample 4 (the byte at offset 5). -/
theorem column_trim_width_six :
    convert V4L2_PIX_FMT_SRGGB10P 6 2 false
        [100, 101, 102, 103, 104, 105, 106, 107, 108, 109,
         200, 201, 202, 203, 204, 205, 206, 207, 208, 209]
      = ⟨none, none, some [101, 102, 103, 104, 201, 202, 203, 204]⟩ ∧
    sample (inputLine
        [100, 101, 102, 103, 104, 105, 106, 107, 108, 109,
         200, 201, 202, 203, 204, 205, 206, 207, 208, 209] 10 0) 4 = some 105 := by
  decide

/-- C7, evaluated without `-f`: whatever value `format0` the variable `format`
holds, a 4 x 4 frame is converted as with `-f SBGGR10P` only when that value
happens to be the SBGGR10P code. For the value 0 all four lines are kept,
while `-f SBGGR10P` drops the first and the last one, and with `-b` the colour
table pointer is read without a value. -/
theorem default_format_unset (format0 : Nat) :
    (main format0 [.s (some (4, 4))] frame4x4
        = main format0 [.s (some (4, 4)), .f "SBGGR10P"] frame4x4
      ↔ format0 = V4L2_PIX_FMT_SBGGR10P) ∧
    main 0 [.s (some (4, 4))] frame4x4
      = ⟨none, none, some [10, 20, 30, 40, 11, 21, 31, 41, 12, 22, 32, 42, 13, 23, 33, 43]⟩ ∧
    main 0 [.s (some (4, 4)), .f "SBGGR10P"] frame4x4
      = ⟨none, none, some [11, 21, 31, 41, 12, 22, 32, 42]⟩ ∧
    (main 0 [.s (some (4, 4)), .b] frame4x4).status = some .uninitialised := by
  refine ⟨?_, by decide, by decide, by decide⟩

  have h2 : main format0 [.s (some (4, 4)), .f "SBGGR10P"] frame4x4
      = ⟨none, none, some [11, 21, 31, 41, 12, 22, 32, 42]⟩ := by
    have hl : lookupFormat "SBGGR10P" = some V4L2_PIX_FMT_SBGGR10P := by decide
    have hq : ¬ ("SBGGR10P" = "?") := by decide
    simp only [main, parseOptions, hl, if_neg hq]
    decide
  have h1 : main format0 [.s (some (4, 4))] frame4x4 = convert format0 4 4 false frame4x4 := rfl
  rw [h2, h1]
  constructor
  · intro h
    by_contra hne
    have hc : convert format0 4 4 false frame4x4
        = ⟨(mainPass format0 4 4 5 frame4x4).2, none, some (mainPass format0 4 4 5 frame4x4).1⟩ := by
      have := convert_accept format0 4 4 5 false frame4x4 (by decide) (by decide) (by decide)
        (by decide) (by decide)
      simp only [Nat.cast_ofNat] at this
      rw [this]
      simp [passes]
    rw [hc] at h
    by_cases hg : format0 = V4L2_PIX_FMT_SGBRG10P
    · subst hg
      exact absurd h (by decide)
    · by_cases hr : format0 = V4L2_PIX_FMT_SRGGB10P
      · subst hr
        exact absurd h (by decide)
      · have hm : mainPass format0 4 4 5 frame4x4 = mainLoop frame4x4 5 4 0 4 0 [] := by
          simp [mainPass, hg, hr, hne]
        rw [hm] at h
        exact absurd h (by decide)
  · intro h
    subst h
    decide

/-- C8 as stated fails: a 2 x 2 frame in format SGBRG10P passes the geometry
checks and the run returns 0 with an empty output file. -/
theorem zero_size_not_rejected :
    convert V4L2_PIX_FMT_SGBRG10P 2 2 false [1, 2, 3, 4] = ⟨none, none, some []⟩ := by
  decide

/-- C8, amended. Zero-size boundary: for width 2 and height 2 in format
SGBRG10P, every input that passes the geometry checks (two lines of at least
two bytes) is converted with status 0 and an empty output file. -/
theorem zero_size_accepted (L : Nat) (b : Bool) (file : List Nat)
    (hL : 2 ≤ L) (hlen : file.length = L * 2) (hsz : file.length < 2 ^ 31) :
    (convert V4L2_PIX_FMT_SGBRG10P 2 2 b file).status = none ∧
      (convert V4L2_PIX_FMT_SGBRG10P 2 2 b file).out = some [] := by
  have hc := convert_accept V4L2_PIX_FMT_SGBRG10P 2 2 L b file (by omega) (by omega) hL hlen hsz
  simp only [Nat.cast_ofNat] at hc
  obtain ⟨t, -, -, hb⟩ := bayerPass_eq .GreenBlue 2 2 L file (by omega) hL hlen (by omega)
  simp only [Nat.cast_ofNat] at hb
  have hm := mainPass_phase .GreenBlue 2 2 L file
  have hz : mainPass V4L2_PIX_FMT_SGBRG10P 2 2 L file = ([], none) := by
    rw [show V4L2_PIX_FMT_SGBRG10P = Phase.GreenBlue.code from rfl, hm]
    simp [Phase.top, mainLoop]
  rw [hc]
  cases b with
  | false => simp [passes, hz]
  | true =>
    rw [show V4L2_PIX_FMT_SGBRG10P = Phase.GreenBlue.code from rfl] at hz ⊢
    simp [passes, hb, hz]

/-- Witness of C8, amended: a 2 x 2 frame with 3-byte lines and `-b`. -/
theorem zero_size_accepted_witness :
    (2 ≤ 3 ∧ ([1, 2, 3, 4, 5, 6] : List Nat).length = 3 * 2 ∧
        ([1, 2, 3, 4, 5, 6] : List Nat).length < 2 ^ 31) ∧
      (convert V4L2_PIX_FMT_SGBRG10P 2 2 true [1, 2, 3, 4, 5, 6]).status = none ∧
      (convert V4L2_PIX_FMT_SGBRG10P 2 2 true [1, 2, 3, 4, 5, 6]).out = some [] :=
  ⟨by decide, zero_size_accepted 3 true [1, 2, 3, 4, 5, 6] (by decide) (by decide) (by decide)⟩

/-- C10. Exact widths for which column trimming is correct: for RedGreen
(SRGGB10P) and GreenBlue (SGBRG10P), width at least 3, at least one output
line and lines that hold all packed groups, every output byte `k` of every
output line is sample `k + 1` of its input line, for every input, exactly when
`width mod 4 ≠ 2`; when `width mod 4 = 2` and `width ≥ 6` the last byte of each
output line is the input line's byte at offset `width - 2`. -/
theorem column_trim_exact_widths (p : Phase) (W H L : Nat) (b : Bool)
    (hp : p = .RedGreen ∨ p = .GreenBlue)
    (hW : 3 ≤ W) (hH : 2 ≤ H) (hrows : 0 < H - p.top - p.bottom) (hL : W ≤ L)
    (hfit : W ≤ 4 ∨ 5 * ((W + 3) / 4) - 1 ≤ L) (hsz : L * H < 2 ^ 31) :
    ((∀ file : List Nat, file.length = L * H →
        ∃ out, (convert p.code W H b file).out = some out ∧
          ∀ j k : Nat, j < H - p.top - p.bottom → k < W - 2 →
            out[j * (W - 2) + k]? = sample (inputLine file L (j + p.top)) (k + 1))
      ↔ W % 4 ≠ 2) ∧
    (W % 4 = 2 → 6 ≤ W → ∀ file : List Nat, file.length = L * H →
      ∃ out, (convert p.code W H b file).out = some out ∧
        ∀ j : Nat, j < H - p.top - p.bottom →
          ∃ v, out[j * (W - 2) + (W - 3)]? = some v ∧
            (inputLine file L (j + p.top))[W - 2]? = some v) := by
  have hleft : p.left = 1 ∧ p.right = 1 := by
    rcases hp with rfl | rfl <;> exact ⟨rfl, rfl⟩
  have hw : W - p.left - p.right = W - 2 := by omega
  have hmain : ∀ file : List Nat, file.length = L * H →
      ∃ out, (convert p.code W H b file).out = some out ∧
        ∀ j k : Nat, j < H - p.top - p.bottom → k < W - 2 →
          out[j * (W - 2) + k]? =
            if 1 + k < 4 * ((W - 2 + 3) / 4) then
              sample (inputLine file L (j + p.top)) (1 + k)
            else (inputLine file L (j + p.top))[1 + k]? := by
    intro file hlen
    obtain ⟨out, -, h2, -, h4⟩ := convert_main p W H L b file (by omega) hH hL hlen
      (by rw [hlen]; exact hsz) (by omega) hfit
    rw [hw, hleft.1] at h4
    exact ⟨out, h2, h4⟩
  have hlast : W % 4 = 2 → 6 ≤ W → ∀ file : List Nat, file.length = L * H →
      ∃ out, (convert p.code W H b file).out = some out ∧
        ∀ j : Nat, j < H - p.top - p.bottom →
          ∃ v, out[j * (W - 2) + (W - 3)]? = some v ∧
            (inputLine file L (j + p.top))[W - 2]? = some v := by
    intro hm h6 file hlen
    obtain ⟨out, h2, h4⟩ := hmain file hlen
    refine ⟨out, h2, fun j hj => ?_⟩
    have hjl : (j + p.top + 1) * L ≤ file.length := by
      rw [hlen, Nat.mul_comm L H]; exact Nat.mul_le_mul_right L (by omega)
    have hil := inputLine_length file L (j + p.top) hjl
    have hlt : W - 2 < (inputLine file L (j + p.top)).length := by rw [hil]; omega
    refine ⟨_, ?_, List.getElem?_eq_getElem hlt⟩
    rw [h4 j (W - 3) hj (by omega), if_neg (by omega), show 1 + (W - 3) = W - 2 by omega,
      List.getElem?_eq_getElem hlt]
  refine ⟨⟨fun h => ?_, fun h file hlen => ?_⟩, hlast⟩
  · intro hm
    have h6 : 6 ≤ W := by omega
    have hfl := markedFile_length (L * H) (p.top * L + (W - 2))
    obtain ⟨out, h2, h4⟩ := h _ hfl
    obtain ⟨out2, h2', h5⟩ := hlast hm h6 _ hfl
    have ho : out2 = out := by
      rw [h2] at h2'; exact (Option.some.inj h2').symm
    subst ho
    obtain ⟨v, hv1, hv2⟩ := h5 0 hrows
    have h7 := h4 0 (W - 3) hrows (by omega)
    rw [hv1, show W - 3 + 1 = W - 2 by omega] at h7
    have htl : (p.top + 1) * L ≤ L * H := by
      rw [Nat.mul_comm L H]; exact Nat.mul_le_mul_right L (by omega)
    rw [Nat.succ_mul] at htl
    unfold sample at h7
    rw [Nat.zero_add] at h7 hv2
    rw [inputLine_getElem? _ _ _ _ (by omega), markedFile_getElem? _ _ _ (by omega)] at h7 hv2
    rw [if_pos rfl] at hv2
    rw [if_neg (by omega)] at h7
    have e1 := Option.some.inj hv2
    have e2 := Option.some.inj h7
    omega
  · obtain ⟨out, h2, h4⟩ := hmain file hlen
    refine ⟨out, h2, fun j k hj hk => ?_⟩
    rw [h4 j k hj hk, if_pos (by omega), Nat.add_comm 1 k]

/-- Witness of C3: the 4 x 4 BlueGreen frame with 5-byte lines. -/
theorem convert_without_column_trim_witness :
    ((Phase.BlueGreen = .GreenRed ∨ Phase.BlueGreen = .BlueGreen) ∧ 2 ≤ 4 ∧ 4 ≤ 5 ∧
        frame4x4.length = 5 * 4 ∧ frame4x4.length < 2 ^ 31 ∧
        (4 ≤ 4 ∨ 5 * ((4 + 3) / 4) - 1 ≤ 5)) ∧
      ∃ out, (convert Phase.BlueGreen.code ((4 : Nat) : Int) ((4 : Nat) : Int) false
            frame4x4).status = none ∧
        (convert Phase.BlueGreen.code ((4 : Nat) : Int) ((4 : Nat) : Int) false
            frame4x4).out = some out ∧
        out.length = (4 - Phase.BlueGreen.top - Phase.BlueGreen.bottom) * 4 ∧
        ∀ j i : Nat, j < 4 - Phase.BlueGreen.top - Phase.BlueGreen.bottom → i < 4 →
          ∃ v, out[j * 4 + i]? = some v ∧
            sample (inputLine frame4x4 5 (j + Phase.BlueGreen.top)) i = some v :=
  ⟨by decide, convert_without_column_trim .BlueGreen 4 4 5 false frame4x4 (by decide)
    (by decide) (by decide) (by decide) (by decide) (by decide) (by decide)⟩

/-- Witness of C5: the 4 x 4 frame in format SGBRG10P, both trims applied. -/
theorem output_size_witness :
    (convert Phase.GreenBlue.code 4 4 false frame4x4).status = none ∧
      ∃ out, (convert Phase.GreenBlue.code 4 4 false frame4x4).out = some out ∧
        (out.length : Int)
          = (4 - Phase.GreenBlue.left - Phase.GreenBlue.right)
            * (4 - Phase.GreenBlue.top - Phase.GreenBlue.bottom) :=
  ⟨by decide, output_size .GreenBlue 4 4 false frame4x4 (by decide)⟩

/-- Witness of C6: the visualisation of the 4 x 4 GreenRed frame. -/
theorem bayer_visualisation_witness :
    (2 ≤ 4 ∧ 4 ≤ 5 ∧ frame4x4.length = 5 * 4 ∧ frame4x4.length < 2 ^ 31 ∧
        (4 ≤ 4 ∨ 5 * ((4 + 3) / 4) - 1 ≤ 5)) ∧
      ∃ body, (convert Phase.GreenRed.code ((4 : Nat) : Int) ((4 : Nat) : Int) true
            frame4x4).bayer
          = some (pnmHeader ((4 : Nat) : Int) ((4 : Nat) : Int), body) ∧
        body.length = 3 * 4 * 4 ∧
        ∀ r c : Nat, r < 4 → c < 4 →
          ∃ v, sample (inputLine frame4x4 5 r) c = some v ∧
            ∀ ch : Nat, ch < 3 →
              body[3 * (r * 4 + c) + ch]?
                = some (if ch = Phase.GreenRed.colour (r % 2) (c % 2) then v else 0) :=
  ⟨by decide, bayer_visualisation .GreenRed 4 4 5 frame4x4 (by decide) (by decide) (by decide)
    (by decide) (by decide) (by decide)⟩

/-- Witness of C10: width 6 in format SRGGB10P, two lines of 10 bytes. -/
theorem column_trim_exact_widths_witness :
    ((Phase.RedGreen = .RedGreen ∨ Phase.RedGreen = .GreenBlue) ∧ 3 ≤ 6 ∧ 2 ≤ 2 ∧
        0 < 2 - Phase.RedGreen.top - Phase.RedGreen.bottom ∧ 6 ≤ 10 ∧
        (6 ≤ 4 ∨ 5 * ((6 + 3) / 4) - 1 ≤ 10) ∧ 10 * 2 < 2 ^ 31) ∧
      ((∀ file : List Nat, file.length = 10 * 2 →
          ∃ out, (convert Phase.RedGreen.code ((6 : Nat) : Int) ((2 : Nat) : Int) false
                file).out = some out ∧
            ∀ j k : Nat, j < 2 - Phase.RedGreen.top - Phase.RedGreen.bottom → k < 6 - 2 →
              out[j * (6 - 2) + k]?
                = sample (inputLine file 10 (j + Phase.RedGreen.top)) (k + 1))
        ↔ 6 % 4 ≠ 2) ∧
      (6 % 4 = 2 → 6 ≤ 6 → ∀ file : List Nat, file.length = 10 * 2 →
        ∃ out, (convert Phase.RedGreen.code ((6 : Nat) : Int) ((2 : Nat) : Int) false
              file).out = some out ∧
          ∀ j : Nat, j < 2 - Phase.RedGreen.top - Phase.RedGreen.bottom →
            ∃ v, out[j * (6 - 2) + (6 - 3)]? = some v ∧
              (inputLine file 10 (j + Phase.RedGreen.top))[6 - 2]? = some v) :=
  ⟨by decide, column_trim_exact_widths .RedGreen 6 2 10 false (by decide) (by decide)
    (by decide) (by decide) (by decide) (by decide) (by decide)⟩


end Raw10
